import Mathlib

/-!
# Verification of the token-whitelist program

Shallow embedding of the `solrazr-app/token-whitelist` Solana program
(`src/program/src/{state,instruction,processor,error}.rs`) and proofs about
its instruction codec, record codec and processor.

Modelling conventions:
* machine integers (`u8`, `u32`, `u64`, `usize`) are `Nat` with explicit
  `% 2^w` / `< 2^w` bounds where overflow or truncation matters;
* byte buffers are `List Nat` (each element intended `< 256`);
* Rust `Pubkey` ([u8; 32]) is a 32-byte `List Nat`;
* `BTreeMap<String, u64>` is a strictly key-sorted association list whose
  keys are the UTF-8 byte strings (base58 renderings of pubkeys, produced by
  `Pubkey::to_string()`), ordered byte-lexicographically exactly as Rust
  orders `String`;
* fallible Rust code returns an explicit result value; a Rust panic /
  process abort (slice-index panic, `unwrap`, `split_at` out of range) is
  modelled by a distinct `crash` outcome (`Option.none` for `pack_into_slice`,
  which has no error return at all in the source).
-/

set_option maxRecDepth 100000
set_option maxHeartbeats 2000000

/-- `w` little-endian base-256 digits of `n` (Rust `to_le_bytes`). -/
def leBytes : Nat → Nat → List Nat
  | 0, _ => []
  | w + 1, n => n % 256 :: leBytes w (n / 256)

/-- Read a little-endian byte list back as a number (Rust `from_le_bytes`). -/
def leVal (bs : List Nat) : Nat :=
  bs.foldr (fun b acc => b + 256 * acc) 0

theorem length_leBytes (w n : Nat) : (leBytes w n).length = w := by
  induction w generalizing n with
  | zero => rfl
  | succ w ih => simp [leBytes, ih]

theorem mem_leBytes_lt (w n : Nat) : ∀ b ∈ leBytes w n, b < 256 := by
  induction w generalizing n with
  | zero => simp [leBytes]
  | succ w ih =>
    intro b hb
    simp only [leBytes, List.mem_cons] at hb
    rcases hb with h | h
    · simpa [h] using Nat.mod_lt n (by norm_num)
    · exact ih _ b h

theorem leVal_leBytes (w n : Nat) : leVal (leBytes w n) = n % 256 ^ w := by
  induction w generalizing n with
  | zero => simp [leBytes, leVal, Nat.mod_one]
  | succ w ih =>
    have h : leVal (leBytes (w + 1) n) = n % 256 + 256 * leVal (leBytes w (n / 256)) := by
      simp [leBytes, leVal]
    rw [h, ih, pow_succ, mul_comm (256 ^ w) 256, Nat.mod_mul]

theorem leVal_leBytes_of_lt {w n : Nat} (h : n < 256 ^ w) :
    leVal (leBytes w n) = n := by
  rw [leVal_leBytes, Nat.mod_eq_of_lt h]

theorem leVal_lt (bs : List Nat) (h : ∀ b ∈ bs, b < 256) :
    leVal bs < 256 ^ bs.length := by
  induction bs with
  | nil => simp [leVal]
  | cons b rest ih =>
    have hb : b < 256 := h b (by simp)
    have hr : leVal rest < 256 ^ rest.length := ih (fun x hx => h x (by simp [hx]))
    have : leVal (b :: rest) = b + 256 * leVal rest := by simp [leVal]
    rw [this, List.length_cons, pow_succ, mul_comm (256 ^ rest.length) 256]
    calc b + 256 * leVal rest < 256 + 256 * leVal rest := by omega
      _ = 256 * (leVal rest + 1) := by ring
      _ ≤ 256 * 256 ^ rest.length := by
          exact Nat.mul_le_mul_left 256 (Nat.succ_le_of_lt hr)

/-! ## Ordered map model of `BTreeMap<String, u64>`

Keys are byte strings; `keyLt` is the byte-lexicographic order that Rust's
`Ord for String` induces on the UTF-8 bytes. The map is represented as a
strictly `keyLt`-sorted association list. -/

/-- A map key: the UTF-8 bytes of a Rust `String`. -/
abbrev Key := List Nat

/-- Byte-lexicographic strict order on keys (Rust `Ord for String`). -/
def keyLt : Key → Key → Bool
  | [], [] => false
  | [], _ :: _ => true
  | _ :: _, [] => false
  | a :: as, b :: bs => if a < b then true else if b < a then false else keyLt as bs

theorem keyLt_irrefl (k : Key) : keyLt k k = false := by
  induction k with
  | nil => rfl
  | cons a as ih => simp [keyLt, ih]

theorem keyLt_asymm {a b : Key} (h : keyLt a b = true) : keyLt b a = false := by
  induction a generalizing b with
  | nil => cases b with
    | nil => simpa [keyLt] using h
    | cons x xs => simp [keyLt]
  | cons x xs ih =>
    cases b with
    | nil => simp [keyLt] at h
    | cons y ys =>
      simp only [keyLt] at h ⊢
      by_cases hxy : x < y
      · simp [hxy, Nat.not_lt_of_lt hxy, Nat.lt_asymm hxy]
      · by_cases hyx : y < x
        · simp [hxy, hyx] at h
        · simp only [hxy, if_false, hyx, if_false] at h ⊢
          simp [ih h]

theorem keyLt_ne {a b : Key} (h : keyLt a b = true) : a ≠ b := by
  intro hab
  rw [hab, keyLt_irrefl] at h
  exact Bool.false_ne_true h

theorem keyLt_trans {a b c : Key} (hab : keyLt a b = true) (hbc : keyLt b c = true) :
    keyLt a c = true := by
  induction a generalizing b c with
  | nil =>
    cases b with
    | nil => simpa [keyLt] using hab
    | cons y ys =>
      cases c with
      | nil => simp [keyLt] at hbc
      | cons z zs => simp [keyLt]
  | cons x xs ih =>
    cases b with
    | nil => simp [keyLt] at hab
    | cons y ys =>
      cases c with
      | nil => simp [keyLt] at hbc
      | cons z zs =>
        simp only [keyLt] at hab hbc ⊢
        by_cases hxy : x < y
        · by_cases hyz : y < z
          · simp [Nat.lt_trans hxy hyz]
          · by_cases hzy : z < y
            · simp [hyz, hzy] at hbc
            · have : y = z := Nat.le_antisymm (Nat.le_of_not_lt hzy) (Nat.le_of_not_lt hyz)
              subst this
              simp [hxy]
        · by_cases hyx : y < x
          · simp [hxy, hyx] at hab
          · have hxyeq : x = y := Nat.le_antisymm (Nat.le_of_not_lt hyx) (Nat.le_of_not_lt hxy)
            subst hxyeq
            simp only [hxy, if_false, hyx, if_false] at hab
            by_cases hyz : x < z
            · simp [hyz]
            · by_cases hzy : z < x
              · simp [hyz, hzy] at hbc
              · have : x = z := Nat.le_antisymm (Nat.le_of_not_lt hzy) (Nat.le_of_not_lt hyz)
                subst this
                simp only [hyz, if_false, hzy, if_false] at hbc ⊢
                exact ih hab hbc

theorem keyLt_total (a b : Key) : keyLt a b = true ∨ a = b ∨ keyLt b a = true := by
  induction a generalizing b with
  | nil => cases b with
    | nil => simp
    | cons y ys => simp [keyLt]
  | cons x xs ih =>
    cases b with
    | nil => simp [keyLt]
    | cons y ys =>
      rcases Nat.lt_trichotomy x y with h | h | h
      · left; simp [keyLt, h]
      · subst h
        rcases ih ys with h' | h' | h'
        · left; simp [keyLt, h']
        · right; left; simp [h']
        · right; right; simp [keyLt, h']
      · right; right; simp [keyLt, h, Nat.lt_asymm h]

/-- The whitelist map: association list of (key bytes, allocation). -/
abbrev WMap := List (Key × Nat)

/-- `BTreeMap::insert` on the sorted association list. -/
def mapInsert (k : Key) (v : Nat) : WMap → WMap
  | [] => [(k, v)]
  | (k', v') :: rest =>
    if keyLt k k' then (k, v) :: (k', v') :: rest
    else if k = k' then (k, v) :: rest
    else (k', v') :: mapInsert k v rest

/-- `BTreeMap::remove` on the sorted association list. -/
def mapRemove (k : Key) : WMap → WMap
  | [] => []
  | (k', v') :: rest => if k = k' then rest else (k', v') :: mapRemove k rest

/-- `BTreeMap::get` on the association list. -/
def mapLookup (k : Key) : WMap → Option Nat
  | [] => none
  | (k', v') :: rest => if k = k' then some v' else mapLookup k rest

/-- `BTreeMap::contains_key` on the association list. -/
def mapContainsKey (k : Key) (m : WMap) : Bool :=
  m.any fun e => decide (e.1 = k)

theorem mem_mapInsert {k : Key} {v : Nat} {m : WMap} {e : Key × Nat}
    (h : e ∈ mapInsert k v m) : e = (k, v) ∨ e ∈ m := by
  induction m with
  | nil => simpa [mapInsert] using h
  | cons a rest ih =>
    obtain ⟨k', v'⟩ := a
    simp only [mapInsert] at h
    split at h
    · rcases List.mem_cons.1 h with h' | h'
      · exact Or.inl h'
      · exact Or.inr h'
    · split at h
      · rcases List.mem_cons.1 h with h' | h'
        · exact Or.inl h'
        · exact Or.inr (List.mem_cons_of_mem _ h')
      · rcases List.mem_cons.1 h with h' | h'
        · exact Or.inr (by simp [h'])
        · rcases ih h' with h'' | h''
          · exact Or.inl h''
          · exact Or.inr (List.mem_cons_of_mem _ h'')

theorem mapLookup_mapInsert_self (k : Key) (v : Nat) (m : WMap) :
    mapLookup k (mapInsert k v m) = some v := by
  induction m with
  | nil => simp [mapInsert, mapLookup]
  | cons a rest ih =>
    obtain ⟨k', v'⟩ := a
    simp only [mapInsert]
    split
    · simp [mapLookup]
    · split
      · simp [mapLookup]
      · rename_i hlt hne
        simp [mapLookup, hne, ih]

theorem mapLookup_mapInsert_ne {k k' : Key} (v : Nat) (m : WMap) (h : k' ≠ k) :
    mapLookup k' (mapInsert k v m) = mapLookup k' m := by
  induction m with
  | nil => simp [mapInsert, mapLookup, h]
  | cons a rest ih =>
    obtain ⟨ka, va⟩ := a
    simp only [mapInsert]
    split
    · simp [mapLookup, h]
    · split
      · rename_i hlt heq
        subst heq
        simp [mapLookup, h]
      · by_cases hka : k' = ka
        · simp [mapLookup, hka]
        · simp [mapLookup, hka, ih]

theorem sorted_mapInsert {k : Key} {v : Nat} {m : WMap}
    (h : m.Pairwise fun a b => keyLt a.1 b.1 = true) :
    (mapInsert k v m).Pairwise fun a b => keyLt a.1 b.1 = true := by
  induction m with
  | nil => simp [mapInsert]
  | cons a rest ih =>
    obtain ⟨k', v'⟩ := a
    rw [List.pairwise_cons] at h
    obtain ⟨hall, hrest⟩ := h
    simp only [mapInsert]
    split
    · rename_i hlt
      rw [List.pairwise_cons]
      constructor
      · intro e he
        rcases List.mem_cons.1 he with h' | h'
        · simp [h', hlt]
        · exact keyLt_trans hlt (hall e h')
      · rw [List.pairwise_cons]
        exact ⟨hall, hrest⟩
    · split
      · rename_i hlt heq
        subst heq
        rw [List.pairwise_cons]
        exact ⟨hall, hrest⟩
      · rename_i hlt hne
        rw [List.pairwise_cons]
        constructor
        · intro e he
          rcases mem_mapInsert he with h' | h'
          · subst h'
            rcases keyLt_total k k' with h'' | h'' | h''
            · exact absurd h'' (by simp [hlt])
            · exact absurd h'' hne
            · exact h''
          · exact hall e h'
        · exact ih hrest

theorem mapInsert_append_of_lt {k : Key} (v : Nat) {m : WMap}
    (h : ∀ e ∈ m, keyLt e.1 k = true) :
    mapInsert k v m = m ++ [(k, v)] := by
  induction m with
  | nil => simp [mapInsert]
  | cons a rest ih =>
    obtain ⟨k', v'⟩ := a
    have hk' : keyLt k' k = true := h (k', v') (by simp)
    have h1 : keyLt k k' = false := keyLt_asymm hk'
    have h2 : k ≠ k' := fun he => keyLt_ne hk' he.symm
    simp only [mapInsert, h1, if_false, h2, if_false, Bool.false_eq_true]
    rw [ih (fun e he => h e (by simp [he]))]
    simp

/-! ## Borsh encoding of `BTreeMap<String, u64>`

Borsh serializes the map as a little-endian `u32` entry count followed by
each entry in ascending key order: `u32` key byte length, the key bytes,
then the `u64` value (all little-endian). `try_from_slice` deserializes and
fails unless the whole input slice is consumed. -/

/-- Borsh encoding of one map entry. -/
def serializeEntry (e : Key × Nat) : List Nat :=
  leBytes 4 e.1.length ++ (e.1 ++ leBytes 8 e.2)

/-- Borsh encoding of the entries, in list (= ascending key) order. -/
def serializeEntries : WMap → List Nat
  | [] => []
  | e :: rest => serializeEntry e ++ serializeEntries rest

/-- Borsh encoding of the whole map (`try_to_vec`). -/
def mapSerialize (m : WMap) : List Nat :=
  leBytes 4 m.length ++ serializeEntries m

/-- Read a `w`-byte little-endian integer, failing if fewer bytes remain. -/
def readNatLE (w : Nat) (b : List Nat) : Option (Nat × List Nat) :=
  if w ≤ b.length then some (leVal (b.take w), b.drop w) else none

/-- Borsh decoding of one `(String, u64)` entry. -/
def readEntry (b : List Nat) : Option ((Key × Nat) × List Nat) :=
  match readNatLE 4 b with
  | none => none
  | some (len, r1) =>
    if len ≤ r1.length then
      match readNatLE 8 (r1.drop len) with
      | none => none
      | some (v, r2) => some ((r1.take len, v), r2)
    else none

/-- Borsh decoding of `n` entries, inserting each into the accumulated map;
at the end the input must be fully consumed (`try_from_slice`). -/
def readEntries : Nat → WMap → List Nat → Option WMap
  | 0, acc, rest => if rest.isEmpty then some acc else none
  | n + 1, acc, rest =>
    match readEntry rest with
    | none => none
    | some (e, rest') => readEntries n (mapInsert e.1 e.2 acc) rest'

/-- Borsh decoding of the whole map (`BTreeMap::try_from_slice`). -/
def mapDeserialize (b : List Nat) : Option WMap :=
  match readNatLE 4 b with
  | none => none
  | some (n, rest) => readEntries n [] rest

/-- Well-formedness of one map entry as a Rust `(String, u64)` value. -/
def wfEntry (e : Key × Nat) : Prop :=
  e.1.length < 2 ^ 32 ∧ (∀ b ∈ e.1, b < 256) ∧ e.2 < 2 ^ 64

/-- Well-formedness of a map value: strictly sorted keys, valid entries. -/
def wfMap (m : WMap) : Prop :=
  (m.Pairwise fun a b => keyLt a.1 b.1 = true) ∧ ∀ e ∈ m, wfEntry e

instance (e : Key × Nat) : Decidable (wfEntry e) := by
  unfold wfEntry; infer_instance

instance (m : WMap) : Decidable (wfMap m) := by
  unfold wfMap; infer_instance

theorem readNatLE_leBytes_append (w n : Nat) (rest : List Nat) :
    readNatLE w (leBytes w n ++ rest) = some (n % 256 ^ w, rest) := by
  have hlen : (leBytes w n).length = w := length_leBytes w n
  have h1 : (leBytes w n ++ rest).take w = leBytes w n := List.take_left' hlen
  have h2 : (leBytes w n ++ rest).drop w = rest := List.drop_left' hlen
  have hle : w ≤ (leBytes w n ++ rest).length := by
    rw [List.length_append, hlen]; omega
  simp [readNatLE, hle, hlen, h1, h2, leVal_leBytes]

theorem readEntry_serializeEntry (e : Key × Nat) (rest : List Nat)
    (hk : e.1.length < 2 ^ 32) (hv : e.2 < 2 ^ 64) :
    readEntry (serializeEntry e ++ rest) = some (e, rest) := by
  have h32 : (256 : Nat) ^ 4 = 2 ^ 32 := by norm_num
  have h64 : (256 : Nat) ^ 8 = 2 ^ 64 := by norm_num
  have hassoc : serializeEntry e ++ rest =
      leBytes 4 e.1.length ++ (e.1 ++ (leBytes 8 e.2 ++ rest)) := by
    simp [serializeEntry]
  rw [hassoc]
  unfold readEntry
  rw [readNatLE_leBytes_append]
  have hmod : e.1.length % 256 ^ 4 = e.1.length := Nat.mod_eq_of_lt (h32 ▸ hk)
  simp only [hmod]
  have hlen : e.1.length ≤ (e.1 ++ (leBytes 8 e.2 ++ rest)).length := by
    simp
  have hdrop : (e.1 ++ (leBytes 8 e.2 ++ rest)).drop e.1.length = leBytes 8 e.2 ++ rest :=
    List.drop_left _ _
  have htake : (e.1 ++ (leBytes 8 e.2 ++ rest)).take e.1.length = e.1 :=
    List.take_left _ _
  simp only [hlen, if_pos, hdrop, htake]
  rw [readNatLE_leBytes_append]
  norm_num at hv
  simp [Nat.mod_eq_of_lt hv]

theorem readEntries_serializeEntries (m : WMap) (acc : WMap)
    (hwf : ∀ e ∈ m, wfEntry e) :
    readEntries m.length acc (serializeEntries m) =
      some (m.foldl (fun a e => mapInsert e.1 e.2 a) acc) := by
  induction m generalizing acc with
  | nil => simp [readEntries, serializeEntries]
  | cons e rest ih =>
    have he := hwf e (by simp)
    simp only [serializeEntries, List.length_cons, readEntries,
      readEntry_serializeEntry e _ he.1 he.2.2, List.foldl_cons]
    exact ih _ (fun x hx => hwf x (by simp [hx]))

theorem foldl_mapInsert_sorted (m : WMap) (acc : WMap)
    (h : (acc ++ m).Pairwise fun a b => keyLt a.1 b.1 = true) :
    m.foldl (fun a e => mapInsert e.1 e.2 a) acc = acc ++ m := by
  induction m generalizing acc with
  | nil => simp
  | cons e rest ih =>
    have hlt : ∀ x ∈ acc, keyLt x.1 e.1 = true := by
      intro x hx
      exact (List.pairwise_append.1 h).2.2 x hx e (by simp)
    have hstep : mapInsert e.1 e.2 acc = acc ++ [e] :=
      mapInsert_append_of_lt _ hlt
    have h' : ((acc ++ [e]) ++ rest).Pairwise fun a b => keyLt a.1 b.1 = true := by
      rw [List.append_assoc, List.singleton_append]
      exact h
    simp only [List.foldl_cons, hstep]
    rw [ih _ h']
    simp

theorem mapDeserialize_mapSerialize (m : WMap) (hwf : wfMap m)
    (hcnt : m.length < 2 ^ 32) :
    mapDeserialize (mapSerialize m) = some m := by
  have h32 : (256 : Nat) ^ 4 = 2 ^ 32 := by norm_num
  unfold mapSerialize mapDeserialize
  rw [readNatLE_leBytes_append]
  have hmod : m.length % 256 ^ 4 = m.length := Nat.mod_eq_of_lt (h32 ▸ hcnt)
  simp only [hmod]
  rw [readEntries_serializeEntries m [] hwf.2]
  rw [foldl_mapInsert_sorted m [] (by simpa using hwf.1)]
  simp

theorem length_serializeEntry (e : Key × Nat) :
    (serializeEntry e).length = 12 + e.1.length := by
  simp [serializeEntry, length_leBytes]
  omega

theorem twelve_mul_length_le (m : WMap) :
    12 * m.length ≤ (serializeEntries m).length := by
  induction m with
  | nil => simp [serializeEntries]
  | cons e rest ih =>
    simp only [serializeEntries, List.length_append, length_serializeEntry,
      List.length_cons]
    omega

theorem mapLength_lt_of_serialize_le {m : WMap}
    (h : (mapSerialize m).length ≤ 5116) : m.length < 2 ^ 32 := by
  have h1 : (mapSerialize m).length = 4 + (serializeEntries m).length := by
    simp [mapSerialize, length_leBytes]
  have h2 := twelve_mul_length_le m
  omega

theorem readEntry_length {b : List Nat} {e : Key × Nat} {rest' : List Nat}
    (h : readEntry b = some (e, rest')) :
    b.length = 12 + e.1.length + rest'.length := by
  unfold readEntry readNatLE at h
  split at h
  · exact absurd h (by simp)
  · rename_i len r1 heq
    split at heq
    · rename_i h4
      cases heq
      split at h
      · rename_i hll
        split at h
        · exact absurd h (by simp)
        · rename_i v r2 heq2
          split at heq2
          · rename_i h8
            cases heq2
            cases h
            simp only [List.length_take, List.length_drop] at *
            omega
          · exact absurd heq2 (by simp)
      · exact absurd h (by simp)
    · exact absurd heq (by simp)

theorem readEntry_wf {b : List Nat} {e : Key × Nat} {rest' : List Nat}
    (h : readEntry b = some (e, rest')) (hb : ∀ x ∈ b, x < 256) :
    wfEntry e ∧ ∀ x ∈ rest', x < 256 := by
  unfold readEntry readNatLE at h
  split at h
  · exact absurd h (by simp)
  · rename_i len r1 heq
    split at heq
    · rename_i h4
      cases heq
      split at h
      · rename_i hll
        split at h
        · exact absurd h (by simp)
        · rename_i v r2 heq2
          split at heq2
          · rename_i h8
            cases heq2
            cases h
            have hdropb : ∀ x ∈ b.drop 4, x < 256 :=
              fun x hx => hb x (List.drop_subset _ _ hx)
            have hkb : ∀ x ∈ (b.drop 4).take (leVal (b.take 4)), x < 256 :=
              fun x hx => hdropb x (List.take_subset _ _ hx)
            have hvb : ∀ x ∈ ((b.drop 4).drop (leVal (b.take 4))).take 8, x < 256 :=
              fun x hx => hdropb x (List.drop_subset _ _ (List.take_subset _ _ hx))
            have hrb : ∀ x ∈ ((b.drop 4).drop (leVal (b.take 4))).drop 8, x < 256 :=
              fun x hx => hdropb x (List.drop_subset _ _ (List.drop_subset _ _ hx))
            refine ⟨⟨?_, hkb, ?_⟩, hrb⟩
            · have hv4 := leVal_lt (b.take 4) (fun x hx => hb x (List.take_subset _ _ hx))
              have htl : (b.take 4).length = 4 := by
                simp only [List.length_take]
                omega
              rw [htl] at hv4
              have h32 : (256 : Nat) ^ 4 = 2 ^ 32 := by norm_num
              have hkl : ((b.drop 4).take (leVal (b.take 4))).length ≤ leVal (b.take 4) := by
                simp only [List.length_take]
                omega
              calc ((b.drop 4).take (leVal (b.take 4))).length
                  ≤ leVal (b.take 4) := hkl
                _ < 2 ^ 32 := by rw [← h32]; exact hv4
            · have hv8 := leVal_lt (((b.drop 4).drop (leVal (b.take 4))).take 8) hvb
              have h64 : (256 : Nat) ^ 8 = 2 ^ 64 := by norm_num
              have htl : (((b.drop 4).drop (leVal (b.take 4))).take 8).length = 8 := by
                simp only [List.length_take, List.length_drop] at h8 ⊢
                omega
              rw [htl, h64] at hv8
              exact hv8
          · exact absurd heq2 (by simp)
      · exact absurd h (by simp)
    · exact absurd heq (by simp)

theorem length_serializeEntries_mapInsert_le (k : Key) (v : Nat) (m : WMap) :
    (serializeEntries (mapInsert k v m)).length ≤
      (serializeEntries m).length + (12 + k.length) := by
  induction m with
  | nil => simp [mapInsert, serializeEntries, length_serializeEntry]
  | cons e rest ih =>
    obtain ⟨k', v'⟩ := e
    simp only [mapInsert]
    split
    · simp only [serializeEntries, List.length_append, length_serializeEntry]
      omega
    · split
      · rename_i hlt heq
        subst heq
        simp only [serializeEntries, List.length_append, length_serializeEntry]
        omega
      · simp only [serializeEntries, List.length_append, length_serializeEntry]
        omega

theorem readEntries_length {n : Nat} {acc : WMap} {b : List Nat} {m : WMap}
    (h : readEntries n acc b = some m) :
    (serializeEntries m).length ≤ (serializeEntries acc).length + b.length := by
  induction n generalizing acc b with
  | zero =>
    unfold readEntries at h
    by_cases hb : b.isEmpty
    · simp only [hb, if_pos] at h
      cases h
      simp
    · simp [hb] at h
  | succ n ih =>
    unfold readEntries at h
    cases hre : readEntry b with
    | none => rw [hre] at h; cases h
    | some p =>
      obtain ⟨e, rest'⟩ := p
      rw [hre] at h
      have hlen := readEntry_length hre
      have hins := length_serializeEntries_mapInsert_le e.1 e.2 acc
      have := ih h
      omega

theorem mapDeserialize_length_le {b : List Nat} {m : WMap}
    (h : mapDeserialize b = some m) : (mapSerialize m).length ≤ b.length := by
  unfold mapDeserialize readNatLE at h
  by_cases h4 : 4 ≤ b.length
  · simp only [h4, if_pos] at h
    have := readEntries_length h
    simp only [serializeEntries, List.length_nil] at this
    have hlen : (mapSerialize m).length = 4 + (serializeEntries m).length := by
      simp [mapSerialize, length_leBytes]
    simp only [List.length_drop] at this
    omega
  · simp [h4] at h

theorem readEntries_wf {n : Nat} {acc : WMap} {b : List Nat} {m : WMap}
    (h : readEntries n acc b = some m) (hb : ∀ x ∈ b, x < 256)
    (hacc : wfMap acc) : wfMap m := by
  induction n generalizing acc b with
  | zero =>
    unfold readEntries at h
    by_cases he : b.isEmpty
    · simp only [he, if_pos] at h
      cases h
      exact hacc
    · simp [he] at h
  | succ n ih =>
    unfold readEntries at h
    cases hre : readEntry b with
    | none => rw [hre] at h; cases h
    | some p =>
      obtain ⟨e, rest'⟩ := p
      rw [hre] at h
      obtain ⟨hwe, hrb⟩ := readEntry_wf hre hb
      refine ih h hrb ⟨sorted_mapInsert hacc.1, ?_⟩
      intro x hx
      rcases mem_mapInsert hx with h' | h'
      · subst h'
        exact hwe
      · exact hacc.2 x h'

theorem mapDeserialize_wf {b : List Nat} {m : WMap}
    (h : mapDeserialize b = some m) (hb : ∀ x ∈ b, x < 256) : wfMap m := by
  unfold mapDeserialize readNatLE at h
  by_cases h4 : 4 ≤ b.length
  · simp only [h4, if_pos] at h
    exact readEntries_wf h (fun x hx => hb x (List.drop_subset _ _ hx))
      ⟨List.Pairwise.nil, by simp⟩
  · simp [h4] at h

/-! ## Pubkeys and `Pubkey::to_string()` (base58)

`Pubkey` is a 32-byte array; its `Display`/`to_string` is the bs58 (base58btc)
rendering: one alphabet character per base-58 digit of the big-endian value,
preceded by one '1' per leading zero byte. -/

/-- The base58btc alphabet as ASCII codes
(`123456789ABCDEFGHJKLMNPQRSTUVWXYZabcdefghijkmnopqrstuvwxyz`). -/
def BASE58_ALPHABET : List Nat :=
  [49, 50, 51, 52, 53, 54, 55, 56, 57,
   65, 66, 67, 68, 69, 70, 71, 72,
   74, 75, 76, 77, 78,
   80, 81, 82, 83, 84, 85, 86, 87, 88, 89, 90,
   97, 98, 99, 100, 101, 102, 103, 104, 105, 106, 107,
   109, 110, 111, 112, 113, 114, 115, 116, 117, 118, 119, 120, 121, 122]

/-- Big-endian value of a byte string. -/
def beVal (bs : List Nat) : Nat :=
  bs.foldl (fun acc b => acc * 256 + b) 0

/-- Base-58 digits of `n`, least significant first, rendered in the
alphabet; `fuel` bounds the recursion (64 covers any 32-byte value). -/
def b58digits : Nat → Nat → List Nat
  | 0, _ => []
  | _ + 1, 0 => []
  | fuel + 1, n + 1 =>
    BASE58_ALPHABET.getD ((n + 1) % 58) 0 :: b58digits fuel ((n + 1) / 58)

/-- `Pubkey::to_string()`: the base58 rendering of the 32 key bytes, as the
UTF-8 (here pure ASCII) byte string Rust uses as the `BTreeMap` key. -/
def pubkeyToString (pk : Key) : Key :=
  List.replicate (pk.takeWhile (fun b => b == 0)).length 49 ++
    (b58digits 64 (beVal pk)).reverse

/-! ## `TokenWhitelist` record state (`state.rs`) -/

/-- The registry state (`struct TokenWhitelist`). -/
structure TokenWhitelist where
  is_initialized : Bool
  init_pubkey : Key
  max_whitelist_size : Nat
  whitelist_map : WMap
deriving DecidableEq

/-- Errors surfaced to the caller. Merges `TokenWhitelistError` (error.rs)
with the `solana_program::ProgramError` variants the processor returns.
`InvalidAuthority` and `Overflow` are referenced by `processor.rs`
(`check_authority`, `process_close_whitelist_account`). -/
inductive ProgErr where
  | InvalidInstruction
  | NotRentExempt
  | TokenWhitelistNotInit
  | TokenWhitelistNotOwner
  | TokenWhitelistSizeExceeds
  | NotOwner
  | InvalidAuthority
  | Overflow
  | MissingRequiredSignature
  | AccountAlreadyInitialized
  | InvalidAccountData
deriving DecidableEq

/-- Result of a fallible Rust function that can also abort the process:
`ok` = `Ok(_)`, `err` = `Err(_)`, `crash` = panic (slice-index panic,
`unwrap` failure, `split_at` out of range). -/
inductive PRes (α : Type) where
  | ok (a : α)
  | err (e : ProgErr)
  | crash
deriving DecidableEq

/-- `count_from_le` (state.rs): little-endian u32 read via explicit shifts. -/
def count_from_le (a : List Nat) : Nat :=
  a.getD 0 0 + a.getD 1 0 * 256 + a.getD 2 0 * 65536 + a.getD 3 0 * 16777216

/-- `transform_u32_to_array_of_u8` (state.rs): shifts/masks producing the
little-endian byte array `[b4, b3, b2, b1]`; the `as u32` truncation of the
Rust call site is the implicit `% 2^32` in each digit. -/
def transform_u32_to_array_of_u8 (x : Nat) : List Nat :=
  [x % 256, x / 256 % 256, x / 65536 % 256, x / 16777216 % 256]

/-- `TokenWhitelist::unpack_from_slice`. Layout: 1 init byte, 32 pubkey
bytes, 8 size bytes, 4 map-length bytes, 5116 map bytes (5161 total).
`crash` models: `array_ref!` panic on a short buffer, the slice-range panic
when the declared map length exceeds 5116, and the `.unwrap()` panic when
the Borsh sub-decode fails. A declared length of 0 skips the sub-decoder. -/
def TokenWhitelist.unpack_from_slice (src : List Nat) : PRes TokenWhitelist :=
  if src.length < 5161 then .crash
  else if 5116 < count_from_le ((src.drop 41).take 4) then .crash
  else
    match if count_from_le ((src.drop 41).take 4) = 0 then some []
          else mapDeserialize (((src.drop 45).take 5116).take
            (count_from_le ((src.drop 41).take 4))) with
    | none => .crash
    | some btree_map =>
      match src.take 1 with
      | [0] => .ok ⟨false, (src.drop 1).take 32, leVal ((src.drop 33).take 8), btree_map⟩
      | [1] => .ok ⟨true, (src.drop 1).take 32, leVal ((src.drop 33).take 8), btree_map⟩
      | _ => .err .InvalidAccountData

/-- `TokenWhitelist::pack_into_slice`: overwrites the 45-byte header and the
serialized map prefix of the 5116-byte map region, leaving the rest of the
buffer as it was. `none` models a panic: `array_mut_ref!` on a short buffer,
or the out-of-range `btree_map_dst[..data_ser.len()]` slice when the
serialized map exceeds 5116 bytes (the function has no error return). -/
def TokenWhitelist.pack_into_slice (self : TokenWhitelist) (dst : List Nat) :
    Option (List Nat) :=
  if dst.length < 5161 then none
  else if 5116 < (mapSerialize self.whitelist_map).length then none
  else some ((if self.is_initialized then 1 else 0) ::
    (self.init_pubkey ++ (leBytes 8 self.max_whitelist_size ++
      (transform_u32_to_array_of_u8 (mapSerialize self.whitelist_map).length ++
        (mapSerialize self.whitelist_map ++
          dst.drop (45 + (mapSerialize self.whitelist_map).length))))))

/-! ## Instruction codec (`instruction.rs`) -/

/-- The five instruction variants. -/
inductive TokenWhitelistInstruction where
  | InitTokenWhitelist (max_whitelist_size : Nat)
  | AddToWhitelist (allocation_amount : Nat)
  | RemoveFromWhitelist
  | SetAllocationToZero
  | CloseWhitelistAccount
deriving DecidableEq

/-- `TokenWhitelistInstruction::unpack`. For tags 0 and 1 the source calls
`rest.split_at(8)`, which panics (`crash`) when fewer than 8 bytes follow
the tag; with 8 bytes present the `try_into().ok()` conversion always
succeeds, so its `ok_or(InvalidInstruction)` branch is unreachable. -/
def TokenWhitelistInstruction.unpack (input : List Nat) :
    PRes TokenWhitelistInstruction :=
  match input with
  | [] => .err .InvalidInstruction
  | tag :: rest =>
    if tag = 0 then
      if rest.length < 8 then .crash
      else .ok (.InitTokenWhitelist (leVal (rest.take 8)))
    else if tag = 1 then
      if rest.length < 8 then .crash
      else .ok (.AddToWhitelist (leVal (rest.take 8)))
    else if tag = 2 then .ok .RemoveFromWhitelist
    else if tag = 3 then .ok .SetAllocationToZero
    else if tag = 4 then .ok .CloseWhitelistAccount
    else .err .InvalidInstruction

/-- `TokenWhitelistInstruction::pack`. -/
def TokenWhitelistInstruction.pack : TokenWhitelistInstruction → List Nat
  | .InitTokenWhitelist max_whitelist_size => 0 :: leBytes 8 max_whitelist_size
  | .AddToWhitelist allocation_amount => 1 :: leBytes 8 allocation_amount
  | .RemoveFromWhitelist => [2]
  | .SetAllocationToZero => [3]
  | .CloseWhitelistAccount => [4]

/-- A valid instruction value: `u64` payloads in range. -/
def wfInstr : TokenWhitelistInstruction → Prop
  | .InitTokenWhitelist n => n < 2 ^ 64
  | .AddToWhitelist n => n < 2 ^ 64
  | _ => True

instance (i : TokenWhitelistInstruction) : Decidable (wfInstr i) := by
  cases i <;> (unfold wfInstr; infer_instance)

/-! ## Registry processor (`processor.rs`)

Each `process_*` function is a pure function of the account inputs. An
`AcctInfo` carries the fields of `solana_program::AccountInfo` the
processor reads or writes: key, signer flag, lamport balance, data buffer.
The outcome returns the (possibly updated) writable accounts; `err` carries
the accounts as they stand when the error is returned. The rent-sysvar
check of `process_init_whitelist` (`Rent::is_exempt`, a host-runtime
policy) is abstracted into the boolean `rent_exempt` input. -/

/-- The account fields the processor uses. -/
structure AcctInfo where
  key : Key
  is_signer : Bool
  lamports : Nat
  data : List Nat
deriving DecidableEq

/-- Outcome of one processor invocation over writable state `σ`:
`ok` on success, `err` returns the error together with the state at the
time of the early return, `crash` models a panic. -/
inductive Outcome (σ : Type) where
  | ok (s : σ)
  | err (e : ProgErr) (s : σ)
  | crash
deriving DecidableEq

/-- `u64::checked_add`. -/
def checked_add (x y : Nat) : Option Nat :=
  if x + y < 2 ^ 64 then some (x + y) else none

/-- `Processor::process_init_whitelist`. -/
def process_init_whitelist (whitelist_owner token_whitelist_account : AcctInfo)
    (rent_exempt : Bool) (max_whitelist_size : Nat) : Outcome AcctInfo :=
  if !whitelist_owner.is_signer then
    .err .MissingRequiredSignature token_whitelist_account
  else if !rent_exempt then .err .NotRentExempt token_whitelist_account
  else match TokenWhitelist.unpack_from_slice token_whitelist_account.data with
  | .crash => .crash
  | .err e => .err e token_whitelist_account
  | .ok token_whitelist_state =>
    if token_whitelist_state.is_initialized then
      .err .AccountAlreadyInitialized token_whitelist_account
    else
      match TokenWhitelist.pack_into_slice
          { token_whitelist_state with
            is_initialized := true
            init_pubkey := whitelist_owner.key
            max_whitelist_size := max_whitelist_size }
          token_whitelist_account.data with
      | none => .crash
      | some d => .ok { token_whitelist_account with data := d }

/-- `Processor::process_add_whitelist`. -/
def process_add_whitelist (whitelist_owner token_whitelist_account
    account_to_add : AcctInfo) (allocation_amount : Nat) : Outcome AcctInfo :=
  if !whitelist_owner.is_signer then
    .err .MissingRequiredSignature token_whitelist_account
  else match TokenWhitelist.unpack_from_slice token_whitelist_account.data with
  | .crash => .crash
  | .err e => .err e token_whitelist_account
  | .ok token_whitelist_state =>
    if !token_whitelist_state.is_initialized then
      .err .TokenWhitelistNotInit token_whitelist_account
    else if whitelist_owner.key ≠ token_whitelist_state.init_pubkey then
      .err .TokenWhitelistNotOwner token_whitelist_account
    else
      match TokenWhitelist.pack_into_slice
          { token_whitelist_state with
            whitelist_map := mapInsert (pubkeyToString account_to_add.key)
              allocation_amount token_whitelist_state.whitelist_map }
          token_whitelist_account.data with
      | none => .crash
      | some d => .ok { token_whitelist_account with data := d }

/-- `Processor::process_remove_whitelist`. -/
def process_remove_whitelist (whitelist_owner token_whitelist_account
    account_to_remove : AcctInfo) : Outcome AcctInfo :=
  if !whitelist_owner.is_signer then
    .err .MissingRequiredSignature token_whitelist_account
  else match TokenWhitelist.unpack_from_slice token_whitelist_account.data with
  | .crash => .crash
  | .err e => .err e token_whitelist_account
  | .ok token_whitelist_state =>
    if !token_whitelist_state.is_initialized then
      .err .TokenWhitelistNotInit token_whitelist_account
    else if whitelist_owner.key ≠ token_whitelist_state.init_pubkey then
      .err .TokenWhitelistNotOwner token_whitelist_account
    else
      match TokenWhitelist.pack_into_slice
          { token_whitelist_state with
            whitelist_map := mapRemove (pubkeyToString account_to_remove.key)
              token_whitelist_state.whitelist_map }
          token_whitelist_account.data with
      | none => .crash
      | some d => .ok { token_whitelist_account with data := d }

/-- `Processor::process_set_allocation_to_zero`. -/
def process_set_allocation_to_zero (account_owner token_whitelist_account
    account_to_reset : AcctInfo) : Outcome AcctInfo :=
  if !account_owner.is_signer then
    .err .MissingRequiredSignature token_whitelist_account
  else match TokenWhitelist.unpack_from_slice token_whitelist_account.data with
  | .crash => .crash
  | .err e => .err e token_whitelist_account
  | .ok token_whitelist_state =>
    if !token_whitelist_state.is_initialized then
      .err .TokenWhitelistNotInit token_whitelist_account
    else if account_owner.key ≠ account_to_reset.key then
      .err .NotOwner token_whitelist_account
    else if !mapContainsKey (pubkeyToString account_to_reset.key)
        token_whitelist_state.whitelist_map then
      .err .InvalidAccountData token_whitelist_account
    else
      match TokenWhitelist.pack_into_slice
          { token_whitelist_state with
            whitelist_map := mapInsert (pubkeyToString account_to_reset.key) 0
              token_whitelist_state.whitelist_map }
          token_whitelist_account.data with
      | none => .crash
      | some d => .ok { token_whitelist_account with data := d }

/-- `Processor::process_close_whitelist_account` (including the inlined
`check_authority`). Returns the updated (whitelist account, destination
account) pair. The lamport transfer uses `checked_add`; on success the
whitelist account's lamports become 0 and every byte of its data buffer is
zeroed (`iter_mut().for_each(|byte| *byte = 0)`). -/
def process_close_whitelist_account (authority_account token_whitelist_account
    destination_account : AcctInfo) : Outcome (AcctInfo × AcctInfo) :=
  match TokenWhitelist.unpack_from_slice token_whitelist_account.data with
  | .crash => .crash
  | .err e => .err e (token_whitelist_account, destination_account)
  | .ok token_whitelist_state =>
    if !token_whitelist_state.is_initialized then
      .err .TokenWhitelistNotInit (token_whitelist_account, destination_account)
    else if token_whitelist_state.init_pubkey ≠ authority_account.key then
      .err .InvalidAuthority (token_whitelist_account, destination_account)
    else if !authority_account.is_signer then
      .err .MissingRequiredSignature (token_whitelist_account, destination_account)
    else
      match checked_add destination_account.lamports
          token_whitelist_account.lamports with
      | none => .err .Overflow (token_whitelist_account, destination_account)
      | some s =>
        .ok ({ token_whitelist_account with
                lamports := 0
                data := token_whitelist_account.data.map fun _ => 0 },
             { destination_account with lamports := s })

/-! ## Helper lemmas about the record codec -/

theorem map_zero_eq_replicate (l : List Nat) :
    (l.map fun _ => 0) = List.replicate l.length 0 := by
  induction l with
  | nil => rfl
  | cons a l ih => simp [List.replicate_succ, ih]

theorem count_from_le_transform (x : Nat) :
    count_from_le (transform_u32_to_array_of_u8 x) = x % 2 ^ 32 := by
  have h32 : (2 : Nat) ^ 32 = 4294967296 := by norm_num
  have hval : count_from_le (transform_u32_to_array_of_u8 x) =
      x % 256 + x / 256 % 256 * 256 + x / 65536 % 256 * 65536 +
        x / 16777216 % 256 * 16777216 := rfl
  rw [hval, h32]
  omega

theorem mapSerialize_length_ge (m : WMap) : 4 ≤ (mapSerialize m).length := by
  simp [mapSerialize, length_leBytes]

theorem unpack_ok_length {src : List Nat} {st : TokenWhitelist}
    (h : TokenWhitelist.unpack_from_slice src = .ok st) : 5161 ≤ src.length := by
  unfold TokenWhitelist.unpack_from_slice at h
  split at h
  · exact absurd h (by simp)
  · omega

theorem unpack_ok_map {src : List Nat} {st : TokenWhitelist}
    (h : TokenWhitelist.unpack_from_slice src = .ok st) :
    (mapSerialize st.whitelist_map).length ≤ 5116
    ∧ ((∀ x ∈ src, x < 256) → wfMap st.whitelist_map) := by
  unfold TokenWhitelist.unpack_from_slice at h
  split at h
  · exact absurd h (by simp)
  · split at h
    · exact absurd h (by simp)
    · rename_i hlong hdecl
      split at h
      · exact absurd h (by simp)
      · rename_i m hm
        have hmap : (mapSerialize m).length ≤ 5116 ∧
            ((∀ x ∈ src, x < 256) → wfMap m) := by
          split at hm
          · cases hm
            refine ⟨by simp [mapSerialize, serializeEntries, length_leBytes], ?_⟩
            intro _
            exact ⟨List.Pairwise.nil, by simp⟩
          · constructor
            · have h1 := mapDeserialize_length_le hm
              have h2 : (((src.drop 45).take 5116).take
                  (count_from_le ((src.drop 41).take 4))).length ≤
                  count_from_le ((src.drop 41).take 4) := List.length_take_le _ _
              omega
            · intro hb
              refine mapDeserialize_wf hm ?_
              intro x hx
              exact hb x (List.drop_subset _ _
                (List.take_subset _ _ (List.take_subset _ _ hx)))
        split at h
        · cases h; exact hmap
        · cases h; exact hmap
        · exact absurd h (by simp)

theorem unpack_mapSerialize_le {src : List Nat} {st : TokenWhitelist}
    (h : TokenWhitelist.unpack_from_slice src = .ok st) :
    (mapSerialize st.whitelist_map).length ≤ 5116 :=
  (unpack_ok_map h).1

theorem unpack_wfMap {src : List Nat} {st : TokenWhitelist}
    (h : TokenWhitelist.unpack_from_slice src = .ok st)
    (hb : ∀ x ∈ src, x < 256) : wfMap st.whitelist_map :=
  (unpack_ok_map h).2 hb

theorem length_serializeEntries_mapInsert_eq {k : Key} (v : Nat) {m : WMap}
    (hs : m.Pairwise fun a b => keyLt a.1 b.1 = true)
    (hc : mapContainsKey k m = true) :
    (serializeEntries (mapInsert k v m)).length = (serializeEntries m).length := by
  induction m with
  | nil => simp [mapContainsKey] at hc
  | cons e rest ih =>
    obtain ⟨k', v'⟩ := e
    rw [List.pairwise_cons] at hs
    simp only [mapInsert]
    split
    · rename_i hlt
      exfalso
      simp only [mapContainsKey, List.any_cons, List.any_eq_true,
        Bool.or_eq_true, decide_eq_true_eq] at hc
      rcases hc with h1 | ⟨x, hx, hxk⟩
      · exact keyLt_ne hlt h1.symm
      · have hk'x : keyLt k' x.1 = true := hs.1 x hx
        rw [hxk] at hk'x
        have hkk := keyLt_trans hlt hk'x
        rw [keyLt_irrefl] at hkk
        exact Bool.false_ne_true hkk
    · split
      · rename_i hlt heq
        subst heq
        simp [serializeEntries, length_serializeEntry]
      · rename_i hlt hne
        have hcrest : mapContainsKey k rest = true := by
          simp only [mapContainsKey, List.any_cons, Bool.or_eq_true,
            decide_eq_true_eq] at hc ⊢
          rcases hc with h1 | h1
          · exact absurd h1 (fun hh => hne hh.symm)
          · exact h1
        simp only [serializeEntries, List.length_append]
        rw [ih hs.2 hcrest]

/-! ## Claim theorems -/

/-- C6: for every valid instruction value of the five variants (u64 payloads
in range), decoding the bytes produced by encoding it yields exactly the
original instruction: `unpack (pack i) = Ok(i)`. -/
theorem instruction_roundtrip (i : TokenWhitelistInstruction) (h : wfInstr i) :
    TokenWhitelistInstruction.unpack i.pack = .ok i := by
  have h64 : (256 : Nat) ^ 8 = 2 ^ 64 := by norm_num
  cases i with
  | InitTokenWhitelist n =>
    have hn : n < 256 ^ 8 := by rw [h64]; exact h
    have hlen : (leBytes 8 n).length = 8 := length_leBytes 8 n
    unfold TokenWhitelistInstruction.pack TokenWhitelistInstruction.unpack
    have htake : (leBytes 8 n).take 8 = leBytes 8 n := by
      exact List.take_of_length_le (by rw [hlen])
    simp [hlen, htake, leVal_leBytes_of_lt hn]
  | AddToWhitelist n =>
    have hn : n < 256 ^ 8 := by rw [h64]; exact h
    have hlen : (leBytes 8 n).length = 8 := length_leBytes 8 n
    unfold TokenWhitelistInstruction.pack TokenWhitelistInstruction.unpack
    have htake : (leBytes 8 n).take 8 = leBytes 8 n := by
      exact List.take_of_length_le (by rw [hlen])
    simp [hlen, htake, leVal_leBytes_of_lt hn]
  | RemoveFromWhitelist => rfl
  | SetAllocationToZero => rfl
  | CloseWhitelistAccount => rfl

/-- Witness for C6 at a concrete instruction. -/
theorem instruction_roundtrip_witness :
    wfInstr (.AddToWhitelist 250) ∧
      TokenWhitelistInstruction.unpack
          (TokenWhitelistInstruction.pack (.AddToWhitelist 250)) =
        .ok (.AddToWhitelist 250) :=
  ⟨by decide, instruction_roundtrip (.AddToWhitelist 250) (by decide)⟩

/-- C5 (evidence): instruction decode returns `InvalidInstruction` on empty
input and on an unknown tag, but on tag 0 or 1 with fewer than 8 payload
bytes it panics in `rest.split_at(8)` (an abort, not a returned error). -/
theorem unpack_short_payload_panics :
    TokenWhitelistInstruction.unpack [0] = .crash
    ∧ TokenWhitelistInstruction.unpack [1, 1, 2] = .crash
    ∧ TokenWhitelistInstruction.unpack [] = .err .InvalidInstruction
    ∧ TokenWhitelistInstruction.unpack [5] = .err .InvalidInstruction :=
  ⟨rfl, rfl, rfl, rfl⟩

/-- A registry whose map serializes to exactly 5116 bytes:
4 (count) + 4 (key length) + 5100 (key bytes) + 8 (value). -/
def exactFitRegistry : TokenWhitelist :=
  ⟨true, List.replicate 32 0, 100, [(List.replicate 5100 49, 250)]⟩

/-- A registry whose map serializes to 5117 bytes (5101-byte key). -/
def oversizeRegistry : TokenWhitelist :=
  ⟨true, List.replicate 32 0, 100, [(List.replicate 5101 49, 250)]⟩

/-- A 5161-byte buffer declaring a 5117-byte serialized map. -/
def badLenBuffer : List Nat :=
  1 :: (List.replicate 32 0 ++ (List.replicate 8 0 ++
    (transform_u32_to_array_of_u8 5117 ++ List.replicate 5116 0)))

/-- A 5161-byte buffer declaring a 4-byte serialized map whose Borsh
content announces one entry but provides no bytes for it. -/
def badMapBuffer : List Nat :=
  1 :: (List.replicate 32 0 ++ (List.replicate 8 0 ++
    (transform_u32_to_array_of_u8 4 ++
      (transform_u32_to_array_of_u8 1 ++ List.replicate 5112 0))))

/-! ## The record codec round-trip, proved symbolically -/

theorem serializeEntries_bytes_lt {m : WMap} (hwf : ∀ e ∈ m, wfEntry e) :
    ∀ x ∈ serializeEntries m, x < 256 := by
  induction m with
  | nil => simp [serializeEntries]
  | cons e rest ih =>
    intro x hx
    simp only [serializeEntries, serializeEntry, List.mem_append] at hx
    rcases hx with (h | h | h) | h
    · exact mem_leBytes_lt _ _ x h
    · exact (hwf e (by simp)).2.1 x h
    · exact mem_leBytes_lt _ _ x h
    · exact ih (fun e' he' => hwf e' (by simp [he'])) x h

theorem mapSerialize_bytes_lt {m : WMap} (hwf : ∀ e ∈ m, wfEntry e) :
    ∀ x ∈ mapSerialize m, x < 256 := by
  intro x hx
  rcases List.mem_append.1 hx with h | h
  · exact mem_leBytes_lt _ _ x h
  · exact serializeEntries_bytes_lt hwf x h

theorem transform_bytes_lt (n : Nat) :
    ∀ x ∈ transform_u32_to_array_of_u8 n, x < 256 := by
  intro x hx
  simp only [transform_u32_to_array_of_u8, List.mem_cons,
    List.not_mem_nil, or_false] at hx
  rcases hx with h | h | h | h <;> (subst h; exact Nat.mod_lt _ (by norm_num))

theorem pack_into_slice_eq_some (r : TokenWhitelist) (dst : List Nat)
    (h1 : 5161 ≤ dst.length)
    (h2 : (mapSerialize r.whitelist_map).length ≤ 5116) :
    TokenWhitelist.pack_into_slice r dst =
      some ((if r.is_initialized then 1 else 0) ::
        (r.init_pubkey ++ (leBytes 8 r.max_whitelist_size ++
          (transform_u32_to_array_of_u8 (mapSerialize r.whitelist_map).length ++
            (mapSerialize r.whitelist_map ++
              dst.drop (45 + (mapSerialize r.whitelist_map).length)))))) := by
  unfold TokenWhitelist.pack_into_slice
  rw [if_neg (by omega), if_neg (by omega)]

theorem unpack_packed (i : Bool) (pk : Key) (sz : Nat) (m : WMap) (dst : List Nat)
    (hpk : pk.length = 32) (hsz : sz < 2 ^ 64) (hwf : wfMap m)
    (hser : (mapSerialize m).length ≤ 5116) (hdst : dst.length = 5161) :
    TokenWhitelist.unpack_from_slice
      ((if i then 1 else 0) :: (pk ++ (leBytes 8 sz ++
        (transform_u32_to_array_of_u8 (mapSerialize m).length ++
          (mapSerialize m ++ dst.drop (45 + (mapSerialize m).length)))))) =
      .ok ⟨i, pk, sz, m⟩ := by
  have hle8 : (leBytes 8 sz).length = 8 := length_leBytes 8 sz
  have ht4 : (transform_u32_to_array_of_u8 (mapSerialize m).length).length = 4 := rfl
  have hLge : 4 ≤ (mapSerialize m).length := mapSerialize_length_ge m
  have hsz8 : sz < 256 ^ 8 := by
    have h64 : (256 : Nat) ^ 8 = 2 ^ 64 := by norm_num
    rw [h64]; exact hsz
  set d : List Nat := (if i then 1 else 0) :: (pk ++ (leBytes 8 sz ++
    (transform_u32_to_array_of_u8 (mapSerialize m).length ++
      (mapSerialize m ++ dst.drop (45 + (mapSerialize m).length))))) with hd
  have htail : (dst.drop (45 + (mapSerialize m).length)).length =
      5161 - (45 + (mapSerialize m).length) := by
    rw [List.length_drop, hdst]
  have hdlen : d.length = 5161 := by
    rw [hd]
    simp only [List.length_cons, List.length_append, hpk, hle8, ht4, htail]
    omega
  have hd1 : d.drop 1 = pk ++ (leBytes 8 sz ++
      (transform_u32_to_array_of_u8 (mapSerialize m).length ++
        (mapSerialize m ++ dst.drop (45 + (mapSerialize m).length)))) := by
    rw [hd]; rfl
  have hd33 : d.drop 33 = leBytes 8 sz ++
      (transform_u32_to_array_of_u8 (mapSerialize m).length ++
        (mapSerialize m ++ dst.drop (45 + (mapSerialize m).length))) := by
    have hstep : (d.drop 1).drop 32 = d.drop 33 := by
      rw [List.drop_drop]
    rw [← hstep, hd1, List.drop_left' hpk]
  have hd41 : d.drop 41 = transform_u32_to_array_of_u8 (mapSerialize m).length ++
      (mapSerialize m ++ dst.drop (45 + (mapSerialize m).length)) := by
    have hstep : (d.drop 33).drop 8 = d.drop 41 := by
      rw [List.drop_drop]
    rw [← hstep, hd33, List.drop_left' hle8]
  have hd45 : d.drop 45 = mapSerialize m ++
      dst.drop (45 + (mapSerialize m).length) := by
    have hstep : (d.drop 41).drop 4 = d.drop 45 := by
      rw [List.drop_drop]
    rw [← hstep, hd41, List.drop_left' ht4]
  have htake4 : (d.drop 41).take 4 =
      transform_u32_to_array_of_u8 (mapSerialize m).length := by
    rw [hd41]; exact List.take_left' ht4
  have hcount : count_from_le ((d.drop 41).take 4) = (mapSerialize m).length := by
    have h32 : (5116 : Nat) < 2 ^ 32 := by norm_num
    rw [htake4, count_from_le_transform, Nat.mod_eq_of_lt (by omega)]
  have htake32 : (d.drop 1).take 32 = pk := by
    rw [hd1]; exact List.take_left' hpk
  have htake8 : (d.drop 33).take 8 = leBytes 8 sz := by
    rw [hd33]; exact List.take_left' hle8
  have hser_take : ((d.drop 45).take 5116).take (mapSerialize m).length =
      mapSerialize m := by
    rw [hd45, List.take_take, min_eq_left hser]
    exact List.take_left' rfl
  have hdeser : mapDeserialize (((d.drop 45).take 5116).take
      (mapSerialize m).length) = some m := by
    rw [hser_take]
    exact mapDeserialize_mapSerialize m hwf (mapLength_lt_of_serialize_le hser)
  have htake1 : d.take 1 = [if i then 1 else 0] := by rw [hd]; rfl
  rw [show TokenWhitelist.unpack_from_slice d =
    (if d.length < 5161 then PRes.crash
     else if 5116 < count_from_le ((d.drop 41).take 4) then PRes.crash
     else
       match if count_from_le ((d.drop 41).take 4) = 0 then some []
             else mapDeserialize (((d.drop 45).take 5116).take
               (count_from_le ((d.drop 41).take 4))) with
       | none => PRes.crash
       | some btree_map =>
         match d.take 1 with
         | [0] => .ok ⟨false, (d.drop 1).take 32, leVal ((d.drop 33).take 8), btree_map⟩
         | [1] => .ok ⟨true, (d.drop 1).take 32, leVal ((d.drop 33).take 8), btree_map⟩
         | _ => .err .InvalidAccountData) from rfl]
  rw [if_neg (by omega), hcount, if_neg (by omega), if_neg (by omega), hdeser,
    htake1, htake32, htake8, leVal_leBytes_of_lt hsz8]
  cases i <;> rfl

theorem pack_length {r : TokenWhitelist} {dst d : List Nat}
    (h : TokenWhitelist.pack_into_slice r dst = some d)
    (hpk : r.init_pubkey.length = 32) : d.length = dst.length := by
  unfold TokenWhitelist.pack_into_slice at h
  split at h
  · exact absurd h (by simp)
  · split at h
    · exact absurd h (by simp)
    · rename_i h1 h2
      cases h
      simp only [List.length_cons, List.length_append, List.length_nil, hpk,
        length_leBytes, transform_u32_to_array_of_u8, List.length_drop]
      omega

theorem pack_bytes_lt {r : TokenWhitelist} {dst d : List Nat}
    (h : TokenWhitelist.pack_into_slice r dst = some d)
    (hpkb : ∀ b ∈ r.init_pubkey, b < 256)
    (hwfe : ∀ e ∈ r.whitelist_map, wfEntry e)
    (hdb : ∀ b ∈ dst, b < 256) : ∀ b ∈ d, b < 256 := by
  unfold TokenWhitelist.pack_into_slice at h
  split at h
  · exact absurd h (by simp)
  · split at h
    · exact absurd h (by simp)
    · cases h
      intro b hb
      simp only [List.mem_cons, List.mem_append] at hb
      rcases hb with h0 | h1 | h2 | h3 | h4 | h5
      · subst h0
        split <;> norm_num
      · exact hpkb b h1
      · exact mem_leBytes_lt _ _ b h2
      · exact transform_bytes_lt _ b h3
      · exact mapSerialize_bytes_lt hwfe b h4
      · exact hdb b (List.drop_subset _ _ h5)

theorem roundtrip_getD (r : TokenWhitelist) (dst : List Nat)
    (hpk : r.init_pubkey.length = 32) (hsz : r.max_whitelist_size < 2 ^ 64)
    (hwf : wfMap r.whitelist_map)
    (hser : (mapSerialize r.whitelist_map).length ≤ 5116)
    (hdst : dst.length = 5161) :
    TokenWhitelist.pack_into_slice r dst =
        some ((TokenWhitelist.pack_into_slice r dst).getD [])
    ∧ TokenWhitelist.unpack_from_slice
        ((TokenWhitelist.pack_into_slice r dst).getD []) = .ok r := by
  have hp := pack_into_slice_eq_some r dst (by omega) hser
  constructor
  · rw [hp]
    rfl
  · rw [hp]
    simp only [Option.getD_some]
    exact unpack_packed r.is_initialized r.init_pubkey r.max_whitelist_size
      r.whitelist_map dst hpk hsz hwf hser hdst

/-- C7: for every well-formed registry value whose serialized map fits in
5116 bytes, encoding into a 5161-byte buffer and decoding the result
returns a registry equal to the original in all four fields. -/
theorem record_roundtrip (r : TokenWhitelist) (dst : List Nat)
    (hpk : r.init_pubkey.length = 32) (hsz : r.max_whitelist_size < 2 ^ 64)
    (hwf : wfMap r.whitelist_map)
    (hser : (mapSerialize r.whitelist_map).length ≤ 5116)
    (hdst : dst.length = 5161) :
    (TokenWhitelist.pack_into_slice r dst).map TokenWhitelist.unpack_from_slice =
      some (.ok r) := by
  obtain ⟨h1, h2⟩ := roundtrip_getD r dst hpk hsz hwf hser hdst
  rw [h1]
  exact congrArg some h2

/-- A small concrete registry used as the round-trip witness. -/
def rtRegistry : TokenWhitelist :=
  ⟨true, List.replicate 32 5, 123, [([50, 51], 9)]⟩

/-- Witness for C7 at a concrete registry and a nonzero prior buffer. -/
theorem record_roundtrip_witness :
    (TokenWhitelist.pack_into_slice rtRegistry (List.replicate 5161 7)).map
        TokenWhitelist.unpack_from_slice = some (.ok rtRegistry) :=
  record_roundtrip rtRegistry (List.replicate 5161 7) (by simp [rtRegistry])
    (by norm_num [rtRegistry]) (by decide) (by decide)
    (by rw [List.length_replicate])

theorem length_mapSerialize (m : WMap) :
    (mapSerialize m).length = 4 + (serializeEntries m).length := by
  simp [mapSerialize, length_leBytes]

theorem length_serializeEntries_cons (e : Key × Nat) (rest : WMap) :
    (serializeEntries (e :: rest)).length =
      12 + e.1.length + (serializeEntries rest).length := by
  simp [serializeEntries, length_serializeEntry]

theorem exactFit_ser_length :
    (mapSerialize exactFitRegistry.whitelist_map).length = 5116 := by
  rw [show exactFitRegistry.whitelist_map = [(List.replicate 5100 49, 250)] from rfl,
    length_mapSerialize, length_serializeEntries_cons,
    show ((List.replicate 5100 49, 250) : Key × Nat).1 = List.replicate 5100 49 from rfl,
    List.length_replicate]
  rfl

theorem oversize_ser_length :
    (mapSerialize oversizeRegistry.whitelist_map).length = 5117 := by
  rw [show oversizeRegistry.whitelist_map = [(List.replicate 5101 49, 250)] from rfl,
    length_mapSerialize, length_serializeEntries_cons,
    show ((List.replicate 5101 49, 250) : Key × Nat).1 = List.replicate 5101 49 from rfl,
    List.length_replicate]
  rfl

theorem exactFit_wf : wfMap exactFitRegistry.whitelist_map := by
  rw [show exactFitRegistry.whitelist_map = [(List.replicate 5100 49, 250)] from rfl]
  constructor
  · exact List.pairwise_singleton _ _
  · intro e he
    rw [List.mem_singleton] at he
    subst he
    refine ⟨?_, ?_, by norm_num⟩
    · rw [show ((List.replicate 5100 49, 250) : Key × Nat).1 =
        List.replicate 5100 49 from rfl, List.length_replicate]
      norm_num
    · intro b hb
      rw [show ((List.replicate 5100 49, 250) : Key × Nat).1 =
        List.replicate 5100 49 from rfl] at hb
      rw [List.eq_of_mem_replicate hb]
      norm_num

/-- C3 (code_bug evidence): encoding a registry whose map serializes to
5117 bytes panics in the `btree_map_dst[..data_ser.len()]` slice (modelled
`none`) instead of returning a capacity error, while a registry whose map
serializes to exactly 5116 bytes encodes and decodes back successfully. -/
theorem pack_oversize_map_panics :
    TokenWhitelist.pack_into_slice oversizeRegistry (List.replicate 5161 0) = none
    ∧ (TokenWhitelist.pack_into_slice exactFitRegistry (List.replicate 5161 0)).map
        TokenWhitelist.unpack_from_slice = some (.ok exactFitRegistry) := by
  have hrep : (List.replicate 5161 (0 : Nat)).length = 5161 :=
    List.length_replicate 5161 0
  constructor
  · unfold TokenWhitelist.pack_into_slice
    rw [if_neg (by omega), if_pos (by rw [oversize_ser_length]; omega)]
  · have hpk : exactFitRegistry.init_pubkey.length = 32 := by
      rw [show exactFitRegistry.init_pubkey = List.replicate 32 0 from rfl,
        List.length_replicate]
    have hsz : exactFitRegistry.max_whitelist_size < 2 ^ 64 := by
      rw [show exactFitRegistry.max_whitelist_size = 100 from rfl]
      norm_num
    obtain ⟨h1, h2⟩ := roundtrip_getD exactFitRegistry (List.replicate 5161 0)
      hpk hsz exactFit_wf (by rw [exactFit_ser_length]) hrep
    rw [h1]
    exact congrArg some h2

/-- C4 (code_bug evidence): record decode aborts instead of returning a
recoverable error, both when the declared map length exceeds 5116 (the
`btree_map_src[0..len]` slice panics) and when the Borsh sub-decode of the
declared-length prefix fails (the `.unwrap()` panics). -/
theorem unpack_bad_buffer_panics :
    TokenWhitelist.unpack_from_slice badLenBuffer = .crash
    ∧ TokenWhitelist.unpack_from_slice badMapBuffer = .crash := by
  have h32 : (List.replicate 32 (0 : Nat)).length = 32 := List.length_replicate 32 0
  have h8 : (List.replicate 8 (0 : Nat)).length = 8 := List.length_replicate 8 0
  constructor
  · have hlen : badLenBuffer.length = 5161 := by
      rw [show badLenBuffer = 1 :: (List.replicate 32 0 ++ (List.replicate 8 0 ++
        (transform_u32_to_array_of_u8 5117 ++ List.replicate 5116 0))) from rfl]
      simp only [List.length_cons, List.length_append, List.length_replicate,
        transform_u32_to_array_of_u8, List.length_nil]
    have hd1 : badLenBuffer.drop 1 = List.replicate 32 0 ++ (List.replicate 8 0 ++
        (transform_u32_to_array_of_u8 5117 ++ List.replicate 5116 0)) := rfl
    have hd33 : badLenBuffer.drop 33 = List.replicate 8 0 ++
        (transform_u32_to_array_of_u8 5117 ++ List.replicate 5116 0) := by
      have hstep : (badLenBuffer.drop 1).drop 32 = badLenBuffer.drop 33 := by
        rw [List.drop_drop]
      rw [← hstep, hd1, List.drop_left' h32]
    have hd41 : badLenBuffer.drop 41 = transform_u32_to_array_of_u8 5117 ++
        List.replicate 5116 0 := by
      have hstep : (badLenBuffer.drop 33).drop 8 = badLenBuffer.drop 41 := by
        rw [List.drop_drop]
      rw [← hstep, hd33, List.drop_left' h8]
    have ht : (transform_u32_to_array_of_u8 5117 ++ List.replicate 5116 0).take 4 =
        transform_u32_to_array_of_u8 5117 := List.take_left' rfl
    have hcount : count_from_le ((badLenBuffer.drop 41).take 4) = 5117 := by
      rw [hd41, ht, count_from_le_transform]
      norm_num
    unfold TokenWhitelist.unpack_from_slice
    rw [if_neg (by omega), hcount, if_pos (by norm_num)]
  · have hlen : badMapBuffer.length = 5161 := by
      rw [show badMapBuffer = 1 :: (List.replicate 32 0 ++ (List.replicate 8 0 ++
        (transform_u32_to_array_of_u8 4 ++ (transform_u32_to_array_of_u8 1 ++
          List.replicate 5112 0)))) from rfl]
      simp only [List.length_cons, List.length_append, List.length_replicate,
        transform_u32_to_array_of_u8, List.length_nil]
    have hd1 : badMapBuffer.drop 1 = List.replicate 32 0 ++ (List.replicate 8 0 ++
        (transform_u32_to_array_of_u8 4 ++ (transform_u32_to_array_of_u8 1 ++
          List.replicate 5112 0))) := rfl
    have hd33 : badMapBuffer.drop 33 = List.replicate 8 0 ++
        (transform_u32_to_array_of_u8 4 ++ (transform_u32_to_array_of_u8 1 ++
          List.replicate 5112 0)) := by
      have hstep : (badMapBuffer.drop 1).drop 32 = badMapBuffer.drop 33 := by
        rw [List.drop_drop]
      rw [← hstep, hd1, List.drop_left' h32]
    have hd41 : badMapBuffer.drop 41 = transform_u32_to_array_of_u8 4 ++
        (transform_u32_to_array_of_u8 1 ++ List.replicate 5112 0) := by
      have hstep : (badMapBuffer.drop 33).drop 8 = badMapBuffer.drop 41 := by
        rw [List.drop_drop]
      rw [← hstep, hd33, List.drop_left' h8]
    have hd45 : badMapBuffer.drop 45 = transform_u32_to_array_of_u8 1 ++
        List.replicate 5112 0 := by
      have hstep : (badMapBuffer.drop 41).drop 4 = badMapBuffer.drop 45 := by
        rw [List.drop_drop]
      have hdr : (transform_u32_to_array_of_u8 4 ++ (transform_u32_to_array_of_u8 1 ++
          List.replicate 5112 0)).drop 4 = transform_u32_to_array_of_u8 1 ++
          List.replicate 5112 0 := List.drop_left' rfl
      rw [← hstep, hd41, hdr]
    have ht : (transform_u32_to_array_of_u8 4 ++ (transform_u32_to_array_of_u8 1 ++
        List.replicate 5112 0)).take 4 = transform_u32_to_array_of_u8 4 :=
      List.take_left' rfl
    have hcount : count_from_le ((badMapBuffer.drop 41).take 4) = 4 := by
      rw [hd41, ht, count_from_le_transform]
      norm_num
    have hregion : (badMapBuffer.drop 45).take 5116 = transform_u32_to_array_of_u8 1 ++
        List.replicate 5112 0 := by
      rw [hd45]
      refine List.take_of_length_le ?_
      simp only [List.length_append, List.length_replicate,
        transform_u32_to_array_of_u8, List.length_cons, List.length_nil]
      omega
    have ht1 : (transform_u32_to_array_of_u8 1 ++ List.replicate 5112 0).take 4 =
        transform_u32_to_array_of_u8 1 := List.take_left' rfl
    have htake4 : ((badMapBuffer.drop 45).take 5116).take 4 =
        transform_u32_to_array_of_u8 1 := by
      rw [hregion, ht1]
    have hdeser : mapDeserialize (transform_u32_to_array_of_u8 1) = none := by decide
    unfold TokenWhitelist.unpack_from_slice
    rw [if_neg (by omega), hcount, if_neg (by norm_num), if_neg (by norm_num),
      htake4, hdeser]

/-- An initialized registry with an empty map (serialized map = 4 bytes). -/
def emptyMapRegistry : TokenWhitelist :=
  ⟨true, List.replicate 32 0, 100, []⟩

theorem emptyMap_ser_length :
    (mapSerialize emptyMapRegistry.whitelist_map).length = 4 := by
  rw [show emptyMapRegistry.whitelist_map = [] from rfl, length_mapSerialize]
  rfl

/-- C9 counterexample: encoding the empty-map registry into a buffer of all
ones leaves byte 49 — the first payload byte beyond the 4-byte declared
serialized map — equal to 1, not 0: the payload region is not zero-padded. -/
theorem pack_zero_padding_counterexample :
    ((((TokenWhitelist.pack_into_slice emptyMapRegistry
        (List.replicate 5161 1)).getD []).drop 49).headD 0) = 1 := by
  have hrep : (List.replicate 5161 (1 : Nat)).length = 5161 :=
    List.length_replicate 5161 1
  have hp := pack_into_slice_eq_some emptyMapRegistry (List.replicate 5161 1)
    (by omega) (by rw [emptyMap_ser_length]; omega)
  rw [hp]
  simp only [Option.getD_some]
  rw [emptyMap_ser_length]
  have hfront : ((if emptyMapRegistry.is_initialized then 1 else 0) ::
      (emptyMapRegistry.init_pubkey ++ (leBytes 8 emptyMapRegistry.max_whitelist_size ++
        (transform_u32_to_array_of_u8 4 ++
          mapSerialize emptyMapRegistry.whitelist_map)))).length = 49 := by
    have hpk : emptyMapRegistry.init_pubkey.length = 32 := by
      rw [show emptyMapRegistry.init_pubkey = List.replicate 32 0 from rfl,
        List.length_replicate]
    simp only [List.length_cons, List.length_append, hpk, length_leBytes,
      transform_u32_to_array_of_u8, List.length_cons, List.length_nil,
      emptyMap_ser_length]
  have hsplit : (if emptyMapRegistry.is_initialized then 1 else 0) ::
      (emptyMapRegistry.init_pubkey ++ (leBytes 8 emptyMapRegistry.max_whitelist_size ++
        (transform_u32_to_array_of_u8 4 ++ (mapSerialize emptyMapRegistry.whitelist_map ++
          (List.replicate 5161 1).drop (45 + 4))))) =
      ((if emptyMapRegistry.is_initialized then 1 else 0) ::
        (emptyMapRegistry.init_pubkey ++ (leBytes 8 emptyMapRegistry.max_whitelist_size ++
          (transform_u32_to_array_of_u8 4 ++ mapSerialize emptyMapRegistry.whitelist_map)))) ++
        (List.replicate 5161 1).drop (45 + 4) := by
    simp only [List.cons_append, List.append_assoc]
  rw [hsplit, List.drop_left' hfront]
  have h49 : (List.replicate 5161 (1 : Nat)).drop (45 + 4) = List.replicate 5112 1 := by
    rw [show (5161 : Nat) = 49 + 5112 from rfl, List.replicate_add]
    exact List.drop_left' (List.length_replicate 49 1)
  rw [h49]
  rfl

/-- C9 as amended: the bytes of the encoded buffer from offset
45 + (serialized map length) onward are exactly the prior buffer's bytes at
those offsets — encode performs no zero padding of the payload region. -/
theorem pack_preserves_bytes_beyond_map (r : TokenWhitelist) (dst : List Nat)
    (hpk : r.init_pubkey.length = 32)
    (hser : (mapSerialize r.whitelist_map).length ≤ 5116)
    (hdst : 5161 ≤ dst.length) :
    (TokenWhitelist.pack_into_slice r dst).map
        (fun d => d.drop (45 + (mapSerialize r.whitelist_map).length)) =
      some (dst.drop (45 + (mapSerialize r.whitelist_map).length)) := by
  rw [pack_into_slice_eq_some r dst hdst hser]
  refine congrArg some ?_
  have hfront : ((if r.is_initialized then 1 else 0) ::
      (r.init_pubkey ++ (leBytes 8 r.max_whitelist_size ++
        (transform_u32_to_array_of_u8 (mapSerialize r.whitelist_map).length ++
          mapSerialize r.whitelist_map)))).length =
      45 + (mapSerialize r.whitelist_map).length := by
    simp only [List.length_cons, List.length_append, hpk, length_leBytes,
      transform_u32_to_array_of_u8, List.length_cons, List.length_nil]
    omega
  have hsplit : (if r.is_initialized then 1 else 0) ::
      (r.init_pubkey ++ (leBytes 8 r.max_whitelist_size ++
        (transform_u32_to_array_of_u8 (mapSerialize r.whitelist_map).length ++
          (mapSerialize r.whitelist_map ++
            dst.drop (45 + (mapSerialize r.whitelist_map).length))))) =
      ((if r.is_initialized then 1 else 0) ::
        (r.init_pubkey ++ (leBytes 8 r.max_whitelist_size ++
          (transform_u32_to_array_of_u8 (mapSerialize r.whitelist_map).length ++
            mapSerialize r.whitelist_map)))) ++
        dst.drop (45 + (mapSerialize r.whitelist_map).length) := by
    simp only [List.cons_append, List.append_assoc]
  rw [hsplit]
  exact List.drop_left' hfront

/-- Witness for the amended C9 at the empty-map registry over an all-ones
prior buffer. -/
theorem pack_preserves_bytes_beyond_map_witness :
    (TokenWhitelist.pack_into_slice emptyMapRegistry (List.replicate 5161 1)).map
        (fun d => d.drop (45 + (mapSerialize emptyMapRegistry.whitelist_map).length)) =
      some ((List.replicate 5161 1).drop
        (45 + (mapSerialize emptyMapRegistry.whitelist_map).length)) :=
  pack_preserves_bytes_beyond_map emptyMapRegistry (List.replicate 5161 1)
    (by rw [show emptyMapRegistry.init_pubkey = List.replicate 32 0 from rfl,
      List.length_replicate])
    (by rw [emptyMap_ser_length]; omega)
    (by rw [List.length_replicate])

/-- C1: every operation that returns an error leaves the writable accounts
(record buffer and both lamport balances) exactly as they were — each error
return carries the untouched input accounts — and in particular AddEntry and
RemoveEntry by a signing caller different from the stored authority fail
with `TokenWhitelistNotOwner`, and CloseRegistry by a caller different from
the stored authority fails with `InvalidAuthority`, all leaving the record
unchanged. -/
theorem processor_errors_frame :
    (∀ o t rE ms e t', process_init_whitelist o t rE ms = .err e t' → t' = t)
    ∧ (∀ o t a amt e t', process_add_whitelist o t a amt = .err e t' → t' = t)
    ∧ (∀ o t a e t', process_remove_whitelist o t a = .err e t' → t' = t)
    ∧ (∀ o t a e t', process_set_allocation_to_zero o t a = .err e t' → t' = t)
    ∧ (∀ o t d e p, process_close_whitelist_account o t d = .err e p → p = (t, d))
    ∧ (∀ o t a amt st, TokenWhitelist.unpack_from_slice t.data = .ok st →
        st.is_initialized = true → o.is_signer = true →
        o.key ≠ st.init_pubkey →
        process_add_whitelist o t a amt = .err .TokenWhitelistNotOwner t)
    ∧ (∀ o t a st, TokenWhitelist.unpack_from_slice t.data = .ok st →
        st.is_initialized = true → o.is_signer = true →
        o.key ≠ st.init_pubkey →
        process_remove_whitelist o t a = .err .TokenWhitelistNotOwner t)
    ∧ (∀ o t d st, TokenWhitelist.unpack_from_slice t.data = .ok st →
        st.is_initialized = true → o.key ≠ st.init_pubkey →
        process_close_whitelist_account o t d = .err .InvalidAuthority (t, d)) := by
  refine ⟨?_, ?_, ?_, ?_, ?_, ?_, ?_, ?_⟩
  · intro o t rE ms e t' h
    unfold process_init_whitelist at h
    repeat' split at h
    all_goals first
      | (cases h; rfl)
      | cases h
  · intro o t a amt e t' h
    unfold process_add_whitelist at h
    repeat' split at h
    all_goals first
      | (cases h; rfl)
      | cases h
  · intro o t a e t' h
    unfold process_remove_whitelist at h
    repeat' split at h
    all_goals first
      | (cases h; rfl)
      | cases h
  · intro o t a e t' h
    unfold process_set_allocation_to_zero at h
    repeat' split at h
    all_goals first
      | (cases h; rfl)
      | cases h
  · intro o t d e p h
    unfold process_close_whitelist_account at h
    repeat' split at h
    all_goals first
      | (cases h; rfl)
      | cases h
  · intro o t a amt st hst hinit hsig hne
    unfold process_add_whitelist
    rw [hst]
    simp [hsig, hinit, hne]
  · intro o t a st hst hinit hsig hne
    unfold process_remove_whitelist
    rw [hst]
    simp [hsig, hinit, hne]
  · intro o t d st hst hinit hne
    unfold process_close_whitelist_account
    rw [hst]
    simp [hinit, Ne.symm hne]

/-- The stored authority key used in the concrete processor scenarios. -/
def wlAuthority : Key := List.replicate 32 3

/-- An initialized registry with empty map owned by `wlAuthority`. -/
def ownReg : TokenWhitelist := ⟨true, wlAuthority, 5, []⟩

/-- The bytes `pack_into_slice` writes: 45-byte header, serialized map,
prior buffer bytes beyond it. Kept in head-normal form so that concrete
buffers built from it never force deep list evaluation. -/
def packedBytes (r : TokenWhitelist) (dst : List Nat) : List Nat :=
  (if r.is_initialized then 1 else 0) ::
    (r.init_pubkey ++ (leBytes 8 r.max_whitelist_size ++
      (transform_u32_to_array_of_u8 (mapSerialize r.whitelist_map).length ++
        (mapSerialize r.whitelist_map ++
          dst.drop (45 + (mapSerialize r.whitelist_map).length)))))

theorem pack_eq_packedBytes (r : TokenWhitelist) (dst : List Nat)
    (h1 : 5161 ≤ dst.length)
    (h2 : (mapSerialize r.whitelist_map).length ≤ 5116) :
    TokenWhitelist.pack_into_slice r dst = some (packedBytes r dst) :=
  pack_into_slice_eq_some r dst h1 h2

theorem unpack_packedBytes (r : TokenWhitelist) (dst : List Nat)
    (hpk : r.init_pubkey.length = 32) (hsz : r.max_whitelist_size < 2 ^ 64)
    (hwf : wfMap r.whitelist_map)
    (hser : (mapSerialize r.whitelist_map).length ≤ 5116)
    (hdst : dst.length = 5161) :
    TokenWhitelist.unpack_from_slice (packedBytes r dst) = .ok r :=
  unpack_packed r.is_initialized r.init_pubkey r.max_whitelist_size
    r.whitelist_map dst hpk hsz hwf hser hdst

theorem packedBytes_length (r : TokenWhitelist) (dst : List Nat)
    (hpk : r.init_pubkey.length = 32)
    (hser : (mapSerialize r.whitelist_map).length ≤ 5116)
    (hdst : dst.length = 5161) :
    (packedBytes r dst).length = 5161 := by
  unfold packedBytes
  simp only [List.length_cons, List.length_append, hpk, length_leBytes,
    transform_u32_to_array_of_u8, List.length_nil, List.length_drop, hdst]
  omega

theorem packedBytes_bytes_lt (r : TokenWhitelist) (dst : List Nat)
    (h1 : 5161 ≤ dst.length)
    (hser : (mapSerialize r.whitelist_map).length ≤ 5116)
    (hpkb : ∀ b ∈ r.init_pubkey, b < 256)
    (hwfe : ∀ e ∈ r.whitelist_map, wfEntry e)
    (hdb : ∀ b ∈ dst, b < 256) : ∀ b ∈ packedBytes r dst, b < 256 :=
  pack_bytes_lt (pack_eq_packedBytes r dst h1 hser) hpkb hwfe hdb

theorem replicate_bytes_lt (n : Nat) {c : Nat} (hc : c < 256) :
    ∀ b ∈ List.replicate n c, b < 256 := by
  intro b hb
  rw [List.eq_of_mem_replicate hb]
  exact hc

/-- Record buffer holding the encoded `ownReg`. -/
def frameBuf : List Nat := packedBytes ownReg (List.replicate 5161 0)

theorem ownReg_ser_length : (mapSerialize ownReg.whitelist_map).length = 4 := by
  rw [show ownReg.whitelist_map = [] from rfl, length_mapSerialize]
  rfl

theorem ownReg_pk_length : ownReg.init_pubkey.length = 32 := by
  rw [show ownReg.init_pubkey = List.replicate 32 3 from rfl,
    List.length_replicate]

theorem frameBuf_unpack :
    TokenWhitelist.unpack_from_slice frameBuf = .ok ownReg :=
  unpack_packedBytes ownReg (List.replicate 5161 0) ownReg_pk_length
    (by rw [show ownReg.max_whitelist_size = 5 from rfl]; norm_num)
    ⟨List.Pairwise.nil, by simp [show ownReg.whitelist_map = [] from rfl]⟩
    (by rw [ownReg_ser_length]; omega)
    (by rw [List.length_replicate])

theorem frameBuf_length : frameBuf.length = 5161 :=
  packedBytes_length ownReg (List.replicate 5161 0) ownReg_pk_length
    (by rw [ownReg_ser_length]; omega) (by rw [List.length_replicate])

def frameOwner : AcctInfo := ⟨List.replicate 32 9, true, 0, []⟩
def frameTwa : AcctInfo := ⟨List.replicate 32 0, false, 0, frameBuf⟩
def frameTarget : AcctInfo := ⟨List.replicate 32 7, false, 0, []⟩

theorem frameTwa_unpack :
    TokenWhitelist.unpack_from_slice frameTwa.data = .ok ownReg :=
  frameBuf_unpack

/-- Witness for C1: a signing caller whose key differs from the stored
authority gets `TokenWhitelistNotOwner` from AddEntry with the record
returned unchanged. -/
theorem processor_errors_frame_witness :
    process_add_whitelist frameOwner frameTwa frameTarget 5 =
      .err .TokenWhitelistNotOwner frameTwa :=
  processor_errors_frame.2.2.2.2.2.1 frameOwner frameTwa frameTarget 5 ownReg
    frameTwa_unpack rfl rfl (by decide)

/-- C2: CloseRegistry on an initialized registry, invoked by a signing
caller equal to the stored authority, adds the record's entire balance to
the destination with checked addition: on overflow it returns `Overflow`
with both balances unchanged; otherwise it succeeds, the destination
balance grows by exactly the record's balance, the record balance becomes
0 and all 5161 record bytes become 0. -/
theorem close_transfers_balance_and_zeroes (o t d : AcctInfo)
    (st : TokenWhitelist)
    (hst : TokenWhitelist.unpack_from_slice t.data = .ok st)
    (hinit : st.is_initialized = true)
    (hkey : o.key = st.init_pubkey)
    (hsig : o.is_signer = true)
    (hlen : t.data.length = 5161) :
    (d.lamports + t.lamports < 2 ^ 64 →
      process_close_whitelist_account o t d =
        .ok ({ t with lamports := 0, data := List.replicate 5161 0 },
             { d with lamports := d.lamports + t.lamports }))
    ∧ (2 ^ 64 ≤ d.lamports + t.lamports →
      process_close_whitelist_account o t d = .err .Overflow (t, d)) := by
  have hkey' : ¬ (st.init_pubkey ≠ o.key) := fun hh => hh hkey.symm
  constructor
  · intro hov
    unfold process_close_whitelist_account
    rw [hst]
    simp only [hinit, hsig, Bool.not_true, Bool.false_eq_true, if_false,
      if_neg hkey', checked_add, if_pos hov, map_zero_eq_replicate, hlen]
  · intro hov
    unfold process_close_whitelist_account
    rw [hst]
    simp only [hinit, hsig, Bool.not_true, Bool.false_eq_true, if_false,
      if_neg hkey', checked_add, if_neg (Nat.not_lt.mpr hov)]

def closeAuth : AcctInfo := ⟨wlAuthority, true, 10, []⟩
def closeTwa : AcctInfo := ⟨List.replicate 32 0, false, 20, frameBuf⟩
def closeDest : AcctInfo := ⟨List.replicate 32 8, false, 30, []⟩

/-- Witness for C2: closing the concrete registry moves the record's 20
lamports onto the destination's 30, zeroes the record balance and zeroes
all 5161 record bytes. -/
theorem close_transfers_witness :
    process_close_whitelist_account closeAuth closeTwa closeDest =
      .ok ({ closeTwa with lamports := 0, data := List.replicate 5161 0 },
           { closeDest with lamports := closeDest.lamports + closeTwa.lamports }) :=
  (close_transfers_balance_and_zeroes closeAuth closeTwa closeDest ownReg
    frameBuf_unpack rfl rfl rfl frameBuf_length).1 (by decide)

/-- C8: ZeroAllocation on an initialized registry where the signing caller
is the target itself: a target absent from the map fails with
`InvalidAccountData` leaving the record unchanged; a present target has its
entry set to 0 while every other entry and the authority and capacity
fields are unchanged, and the updated registry is persisted. -/
theorem zero_allocation_spec (o t a : AcctInfo) (st : TokenWhitelist)
    (hst : TokenWhitelist.unpack_from_slice t.data = .ok st)
    (hbytes : ∀ b ∈ t.data, b < 256)
    (hinit : st.is_initialized = true)
    (hsig : o.is_signer = true)
    (hself : o.key = a.key) :
    (mapContainsKey (pubkeyToString a.key) st.whitelist_map = false →
      process_set_allocation_to_zero o t a = .err .InvalidAccountData t)
    ∧ (mapContainsKey (pubkeyToString a.key) st.whitelist_map = true →
      TokenWhitelist.pack_into_slice
          { st with whitelist_map :=
              mapInsert (pubkeyToString a.key) 0 st.whitelist_map } t.data =
        some (packedBytes
          ({ st with whitelist_map :=
              mapInsert (pubkeyToString a.key) 0 st.whitelist_map }) t.data)
      ∧ process_set_allocation_to_zero o t a =
          .ok { t with data := (packedBytes
            ({ st with whitelist_map :=
                mapInsert (pubkeyToString a.key) 0 st.whitelist_map }) t.data) }
      ∧ mapLookup (pubkeyToString a.key)
          (mapInsert (pubkeyToString a.key) 0 st.whitelist_map) = some 0
      ∧ ∀ k', k' ≠ pubkeyToString a.key →
          mapLookup k' (mapInsert (pubkeyToString a.key) 0 st.whitelist_map) =
            mapLookup k' st.whitelist_map) := by
  have hself' : ¬ (o.key ≠ a.key) := fun hh => hh hself
  constructor
  · intro hc
    unfold process_set_allocation_to_zero
    rw [hst]
    simp only [hsig, hinit, Bool.not_true, Bool.false_eq_true, if_false,
      if_neg hself', hc, Bool.not_false, if_true]
  · intro hc
    have hwfm := unpack_wfMap hst hbytes
    have hserle := unpack_mapSerialize_le hst
    have hlen5161 := unpack_ok_length hst
    have hser' : (mapSerialize (mapInsert (pubkeyToString a.key) 0
        st.whitelist_map)).length ≤ 5116 := by
      rw [length_mapSerialize, length_serializeEntries_mapInsert_eq 0 hwfm.1 hc]
      rw [length_mapSerialize] at hserle
      omega
    have hpack := pack_eq_packedBytes
      { st with whitelist_map := mapInsert (pubkeyToString a.key) 0 st.whitelist_map }
      t.data (by omega) hser'
    refine ⟨hpack, ?_, mapLookup_mapInsert_self _ _ _,
      fun k' hk' => mapLookup_mapInsert_ne _ _ hk'⟩
    have hpack2 := hpack
    simp only [hinit] at hpack2
    unfold process_set_allocation_to_zero
    rw [hst]
    simp only [hsig, hinit, Bool.not_true, Bool.false_eq_true, if_false,
      if_neg hself', hc, hpack2]

def zeroPk : Key := List.replicate 32 0

/-- `pubkeyToString zeroPk`: thirty-two '1' characters. -/
def zaKey : Key := List.replicate 32 49

def zaReg : TokenWhitelist := ⟨true, wlAuthority, 5, [(zaKey, 7)]⟩
def zaBuf : List Nat := packedBytes zaReg (List.replicate 5161 0)
def zaOwner : AcctInfo := ⟨zeroPk, true, 0, []⟩
def zaTwa : AcctInfo := ⟨List.replicate 32 1, false, 0, zaBuf⟩
def zaTarget : AcctInfo := ⟨zeroPk, false, 0, []⟩

theorem zaReg_ser_length : (mapSerialize zaReg.whitelist_map).length = 48 := by
  rw [show zaReg.whitelist_map = [(zaKey, 7)] from rfl, length_mapSerialize,
    length_serializeEntries_cons,
    show ((zaKey, 7) : Key × Nat).1 = zaKey from rfl,
    show zaKey = List.replicate 32 49 from rfl, List.length_replicate]
  rfl

theorem zaTwa_unpack : TokenWhitelist.unpack_from_slice zaTwa.data = .ok zaReg :=
  unpack_packedBytes zaReg (List.replicate 5161 0)
    (by rw [show zaReg.init_pubkey = List.replicate 32 3 from rfl,
      List.length_replicate])
    (by decide) (by decide) (by rw [zaReg_ser_length]; omega)
    (by rw [List.length_replicate])

theorem zaTwa_bytes : ∀ b ∈ zaTwa.data, b < 256 :=
  packedBytes_bytes_lt zaReg (List.replicate 5161 0)
    (by rw [List.length_replicate]) (by rw [zaReg_ser_length]; omega)
    (by decide) (by decide) (replicate_bytes_lt 5161 (by norm_num))

/-- `zaReg` with the target's allocation set to 0. -/
def zaRegZeroed : TokenWhitelist :=
  { zaReg with whitelist_map := mapInsert (pubkeyToString zaTarget.key) 0 zaReg.whitelist_map }

/-- Witness for C8: the zero pubkey's base58 key is present with
allocation 7; self-service zeroing succeeds and persists the update. -/
theorem zero_allocation_spec_witness :
    process_set_allocation_to_zero zaOwner zaTwa zaTarget =
      .ok { zaTwa with data := packedBytes zaRegZeroed zaTwa.data } :=
  ((zero_allocation_spec zaOwner zaTwa zaTarget zaReg zaTwa_unpack zaTwa_bytes
    rfl rfl rfl).2 (by decide)).2.1

/-- The state written by `process_init_whitelist` (processor.rs lines
94-96): flag set, authority set to the caller, capacity set, entries kept. -/
def initState (st : TokenWhitelist) (owner_key : Key) (ms : Nat) : TokenWhitelist :=
  { st with
    is_initialized := true
    init_pubkey := owner_key
    max_whitelist_size := ms }

/-- C10 (implicit): InitRegistry does not clear the entries map. On a
record decoding to an uninitialized registry with a non-empty map, a
signing rent-exempt init succeeds and the persisted record decodes to a
registry with the same entries, only the flag, authority, and capacity
rewritten. -/
theorem init_preserves_entries (o t : AcctInfo) (ms : Nat) (st : TokenWhitelist)
    (hst : TokenWhitelist.unpack_from_slice t.data = .ok st)
    (huninit : st.is_initialized = false)
    (hne : st.whitelist_map ≠ [])
    (hsig : o.is_signer = true)
    (hbytes : ∀ b ∈ t.data, b < 256)
    (hlen : t.data.length = 5161)
    (hok : o.key.length = 32)
    (hms : ms < 2 ^ 64) :
    TokenWhitelist.pack_into_slice (initState st o.key ms) t.data =
        some (packedBytes (initState st o.key ms) t.data)
    ∧ process_init_whitelist o t true ms =
        .ok { t with data := packedBytes (initState st o.key ms) t.data }
    ∧ TokenWhitelist.unpack_from_slice
        (packedBytes (initState st o.key ms) t.data) =
      .ok (initState st o.key ms) := by
  have hwfm := unpack_wfMap hst hbytes
  have hserle := unpack_mapSerialize_le hst
  have hpack := pack_eq_packedBytes (initState st o.key ms) t.data (by omega) hserle
  have hunp := unpack_packedBytes (initState st o.key ms) t.data hok hms hwfm
    hserle hlen
  refine ⟨hpack, ?_, hunp⟩
  have hpack' := hpack
  simp only [initState] at hpack'
  unfold process_init_whitelist
  rw [hst]
  simp only [initState, hsig, huninit, Bool.not_true, Bool.false_eq_true,
    if_false, hpack']

def initReg0 : TokenWhitelist := ⟨false, List.replicate 32 2, 9, [(zaKey, 6)]⟩
def initBuf : List Nat := packedBytes initReg0 (List.replicate 5161 0)
def initOwner : AcctInfo := ⟨wlAuthority, true, 0, []⟩
def initTwa : AcctInfo := ⟨List.replicate 32 4, false, 0, initBuf⟩

theorem initReg0_ser_length : (mapSerialize initReg0.whitelist_map).length = 48 := by
  rw [show initReg0.whitelist_map = [(zaKey, 6)] from rfl, length_mapSerialize,
    length_serializeEntries_cons,
    show ((zaKey, 6) : Key × Nat).1 = zaKey from rfl,
    show zaKey = List.replicate 32 49 from rfl, List.length_replicate]
  rfl

theorem initTwa_unpack :
    TokenWhitelist.unpack_from_slice initTwa.data = .ok initReg0 :=
  unpack_packedBytes initReg0 (List.replicate 5161 0)
    (by rw [show initReg0.init_pubkey = List.replicate 32 2 from rfl,
      List.length_replicate])
    (by decide) (by decide) (by rw [initReg0_ser_length]; omega)
    (by rw [List.length_replicate])

theorem initTwa_bytes : ∀ b ∈ initTwa.data, b < 256 :=
  packedBytes_bytes_lt initReg0 (List.replicate 5161 0)
    (by rw [List.length_replicate]) (by rw [initReg0_ser_length]; omega)
    (by decide) (by decide) (replicate_bytes_lt 5161 (by norm_num))

theorem initTwa_length : initTwa.data.length = 5161 :=
  packedBytes_length initReg0 (List.replicate 5161 0)
    (by rw [show initReg0.init_pubkey = List.replicate 32 2 from rfl,
      List.length_replicate])
    (by rw [initReg0_ser_length]; omega) (by rw [List.length_replicate])

/-- Witness for C10 at a concrete uninitialized registry holding one
pre-existing entry. -/
theorem init_preserves_entries_witness :
    process_init_whitelist initOwner initTwa true 11 =
      .ok { initTwa with data := (packedBytes
        (initState initReg0 initOwner.key 11) initTwa.data) } :=
  (init_preserves_entries initOwner initTwa 11 initReg0 initTwa_unpack rfl
    (by decide) rfl initTwa_bytes initTwa_length (by decide) (by decide)).2.1
